import Mathlib

/-!
Shallow embedding of the document segmentation and structured-extraction
pipeline of `oil_document_.py` (class `OilDocumentProcessor`), with proofs of
the specification claims about it.  Pure data flow is embedded directly:
page records and chunks are structures, the `while` loop of `chunk_documents`
is a recursion on the page-list suffix at the cursor, the text-generation
oracle is a function parameter, and Python exceptions become `Except`/`Option`
results.
-/

/-- Page record as produced by `perform_ocr`: one JSON object per page with
fields `page`, `text`, `is_blank` (`is_blank` is computed as `len(text) < 50`
when the record is produced; it is carried as a field here, exactly as in the
JSON file that `chunk_documents` reads back). -/
structure Page where
  page : Int
  text : String
  is_blank : Bool
deriving Repr, DecidableEq

/-- Stable insertion of a page in front of the first element whose key is not
smaller; helper for `sortByPage`. -/
def insertByPage (p : Page) : List Page → List Page
  | [] => [p]
  | q :: qs => if q.page < p.page then q :: insertByPage p qs else p :: q :: qs

/-- Embeds `sorted(pages, key=lambda x: x["page"])` from `chunk_documents`.
Python's `sorted` is a stable sort by the key; a stable sort by a total key is
extensionally unique, so this stable insertion sort computes the same list. -/
def sortByPage (l : List Page) : List Page := l.foldr insertByPage []

/-- Chunk as built by `chunk_documents`: a dict with keys `chunk_id`,
`type_hint`, `pages`, `text`. -/
structure Chunk where
  chunk_id : Nat
  type_hint : String
  pages : List Int
  text : String
deriving Repr, DecidableEq

/-- Embeds `"\n".join(p["text"] for p in chunk_pages)`. -/
def joinTexts (l : List Page) : String := String.intercalate ("\n") (l.map Page.text)

/-- One pass of the `while i < len(pages)` loop of `chunk_documents`, the
cursor `i` represented by the suffix `pages[i:]`.  The arms mirror the source:
`page_num <= 24` groups `pages[i:i+3]` into an `invoice` chunk and advances
`i += 4`; `25 <= page_num <= 38` makes a single-page `bol` chunk and advances
`i += 1`; `page_num >= 39` makes a single-page `certificate` chunk when the
page is not blank (`i += 2`) and drops the page otherwise (`i += 1`).  For
integer page numbers the three source guards are exhaustive, so the trailing
range is the final `else`.  The slicing `pages[i:i+3]` with `i += 4` (three
taken, one skipped) and the `i += 2` advance (one taken, one skipped) are
spelled out as structural pattern matches on the suffix. -/
def chunkLoop : List Page → Nat → List Chunk
  | [], _ => []
  | p :: rest, cid =>
    if p.page ≤ 24 then
      match rest with
      | q :: r :: _ :: rest3 =>
        { chunk_id := cid, type_hint := "invoice",
          pages := [p.page, q.page, r.page], text := joinTexts [p, q, r] } ::
          chunkLoop rest3 (cid + 1)
      | _ =>
        [{ chunk_id := cid, type_hint := "invoice",
           pages := (p :: rest).map Page.page, text := joinTexts (p :: rest) }]
    else if p.page ≤ 38 then
      { chunk_id := cid, type_hint := "bol", pages := [p.page], text := p.text } ::
        chunkLoop rest (cid + 1)
    else
      if p.is_blank then chunkLoop rest cid
      else
        match rest with
        | _ :: rest2 =>
          { chunk_id := cid, type_hint := "certificate", pages := [p.page], text := p.text } ::
            chunkLoop rest2 (cid + 1)
        | [] =>
          [{ chunk_id := cid, type_hint := "certificate", pages := [p.page], text := p.text }]

/-- Companion to `chunkLoop`: the page numbers the loop passes over without
putting them into any chunk — the fourth page of each invoice window (taken 3,
`i += 4`), the page jumped over after a certificate chunk (`i += 2`), and the
blank trailing-range pages that are dropped. -/
def skippedLoop : List Page → List Int
  | [] => []
  | p :: rest =>
    if p.page ≤ 24 then
      match rest with
      | _ :: _ :: s :: rest3 => s.page :: skippedLoop rest3
      | _ => []
    else if p.page ≤ 38 then skippedLoop rest
    else
      if p.is_blank then p.page :: skippedLoop rest
      else
        match rest with
        | s :: rest2 => s.page :: skippedLoop rest2
        | [] => []

/-- Embeds `chunk_documents`: sort the page records ascending by `page`, then
run the chunking loop from the first page with `chunk_id = 1`. -/
def chunk_documents (pages : List Page) : List Chunk := chunkLoop (sortByPage pages) 1

/-- Raw per-page object as read back from `ocr_pages.json`; the `page` field
is optional so that an object missing that key can be represented (a missing
key makes Python raise `KeyError` inside the `sorted` key function). -/
structure RawPage where
  page : Option Int
  text : String
  is_blank : Bool
deriving Repr, DecidableEq

/-- View of a raw page object as a page record (meaningful when `page` is
present). -/
def rawToPage (r : RawPage) : Page :=
  { page := r.page.getD 0, text := r.text, is_blank := r.is_blank }

/-- PageRecord ingestion, `sorted(json.load(f), key=lambda x: x["page"])` at
the top of `chunk_documents`: a record without a `page` key raises `KeyError`
(modelled as `Except.error`, which propagates — nothing catches it); otherwise
the records are stably sorted ascending by page number.  The source performs
no validation of duplicate or non-positive page numbers. -/
def ingest (l : List RawPage) : Except String (List Page) :=
  if l.all (fun r => r.page.isSome) then Except.ok (sortByPage (l.map rawToPage))
  else Except.error ("KeyError: page")

/-- Structured values as decoded by `json.loads`, restricted to the modelled
fragment: numbers carry only the integer grammar (no fraction or exponent
forms, which would decode to floats). -/
inductive Json where
  | null
  | bool (b : Bool)
  | num (n : Int)
  | str (s : String)
  | arr (elems : List Json)
  | obj (members : List (String × Json))
deriving Repr

/-- Python dict assignment `d[k] = v` on an association list: overwrite the
value at the first occurrence of the key, keeping its position, else append. -/
def setKey : List (String × Json) → String → Json → List (String × Json)
  | [], k, v => [(k, v)]
  | kv :: rest, k, v =>
    if kv.1 = k then (kv.1, v) :: rest else kv :: setKey rest k v

/-- Value of a hexadecimal digit. -/
def hexVal (c : Char) : Option Nat :=
  if c.isDigit then some (c.toNat - 48)
  else if 'a' ≤ c ∧ c ≤ 'f' then some (c.toNat - 87)
  else if 'A' ≤ c ∧ c ≤ 'F' then some (c.toNat - 55)
  else none

/-- Code point of a `\uXXXX` escape. -/
def hex4 (a b c d : Char) : Option Nat := do
  let x ← hexVal a
  let y ← hexVal b
  let z ← hexVal c
  let w ← hexVal d
  pure (((x * 16 + y) * 16 + z) * 16 + w)

/-- Single-character JSON string escapes; anything else is a decode error. -/
def unescape (e : Char) : Option Char :=
  if e = '"' then some '"'
  else if e = '\\' then some '\\'
  else if e = '/' then some '/'
  else if e = 'b' then some (Char.ofNat 8)
  else if e = 'f' then some (Char.ofNat 12)
  else if e = 'n' then some '\n'
  else if e = 'r' then some '\r'
  else if e = 't' then some '\t'
  else none

/-- Body of a JSON string after the opening quote: the decoded characters and
the remainder after the closing quote.  Unescaped control characters are a
decode error (strict mode), as is an unterminated string.  Surrogate-pair
`\u` escapes are not combined (outside the modelled fragment). -/
def parseStrAux : List Char → Option (List Char × List Char)
  | [] => none
  | '"' :: rest => some ([], rest)
  | '\\' :: 'u' :: h1 :: h2 :: h3 :: h4 :: rest =>
    (hex4 h1 h2 h3 h4).bind (fun n =>
      (parseStrAux rest).map (fun pr => (Char.ofNat n :: pr.1, pr.2)))
  | '\\' :: e :: rest =>
    (unescape e).bind (fun ch =>
      (parseStrAux rest).map (fun pr => (ch :: pr.1, pr.2)))
  | c :: rest =>
    if c.toNat < 32 then none
    else (parseStrAux rest).map (fun pr => (c :: pr.1, pr.2))

/-- Digit run of a JSON integer with the leading-zero restriction; rejects a
following fraction or exponent marker (outside the modelled fragment). -/
def parseNumberCore (t : List Char) : Option (Int × List Char) :=
  let ds := t.takeWhile Char.isDigit
  let rest := t.dropWhile Char.isDigit
  match ds with
  | [] => none
  | d :: tl =>
    let bad : Bool :=
      match rest with
      | c :: _ => (d == '0' && !tl.isEmpty) || c == '.' || c == 'e' || c == 'E'
      | [] => d == '0' && !tl.isEmpty
    if bad then none
    else some (ds.foldl (fun a c2 => a * 10 + Int.ofNat (c2.toNat - 48)) 0, rest)

/-- JSON number (modelled fragment: integers), with optional minus sign. -/
def parseNumber : List Char → Option (Int × List Char)
  | '-' :: t => (parseNumberCore t).map (fun pr => (-pr.1, pr.2))
  | t => parseNumberCore t

/-- JSON insignificant whitespace. -/
def skipWs : List Char → List Char
  | [] => []
  | c :: rest =>
    if c = ' ' ∨ c = '\t' ∨ c = '\n' ∨ c = '\r' then skipWs rest else c :: rest

/-- Member loop of a JSON object parse (after the opening brace, when the
object is not empty): key string, colon, value, then comma or closing brace.
Members are accumulated with `setKey`, matching Python's duplicate-key
semantics.  `pv` parses one value; the fuel bounds the number of members. -/
def parseMembersLoop (pv : List Char → Option (Json × List Char)) :
    Nat → List (String × Json) → List Char → Option (List (String × Json) × List Char)
  | 0, _, _ => none
  | fuel + 1, acc, s =>
    match skipWs s with
    | '"' :: r0 =>
      match parseStrAux r0 with
      | some (kcs, r1) =>
        match skipWs r1 with
        | ':' :: r2 =>
          match pv r2 with
          | some (v, r3) =>
            match skipWs r3 with
            | ',' :: r4 => parseMembersLoop pv fuel (setKey acc (String.mk kcs) v) r4
            | '\x7d' :: r4 => some (setKey acc (String.mk kcs) v, r4)
            | _ => none
          | none => none
        | _ => none
      | none => none
    | _ => none

/-- Element loop of a JSON array parse (after the opening bracket, when the
array is not empty). -/
def parseElemsLoop (pv : List Char → Option (Json × List Char)) :
    Nat → List Json → List Char → Option (List Json × List Char)
  | 0, _, _ => none
  | fuel + 1, acc, s =>
    match pv s with
    | some (v, r1) =>
      match skipWs r1 with
      | ',' :: r2 => parseElemsLoop pv fuel (acc ++ [v]) r2
      | ']' :: r2 => some (acc ++ [v], r2)
      | _ => none
    | none => none

/-- One JSON value and the remaining input.  The fuel bounds the nesting
depth; `jsonLoads` supplies enough for any input. -/
def parseValue : Nat → List Char → Option (Json × List Char)
  | 0, _ => none
  | fuel + 1, s =>
    match skipWs s with
    | [] => none
    | c :: rest =>
      if c = '\x7b' then
        match skipWs rest with
        | '\x7d' :: r2 => some (Json.obj [], r2)
        | t =>
          (parseMembersLoop (parseValue fuel) (t.length + 1) [] t).map
            (fun pr => (Json.obj pr.1, pr.2))
      else if c = '[' then
        match skipWs rest with
        | ']' :: r2 => some (Json.arr [], r2)
        | t =>
          (parseElemsLoop (parseValue fuel) (t.length + 1) [] t).map
            (fun pr => (Json.arr pr.1, pr.2))
      else if c = '"' then
        (parseStrAux rest).map (fun pr => (Json.str (String.mk pr.1), pr.2))
      else if c = 't' then
        match rest with
        | 'r' :: 'u' :: 'e' :: r => some (Json.bool true, r)
        | _ => none
      else if c = 'f' then
        match rest with
        | 'a' :: 'l' :: 's' :: 'e' :: r => some (Json.bool false, r)
        | _ => none
      else if c = 'n' then
        match rest with
        | 'u' :: 'l' :: 'l' :: r => some (Json.null, r)
        | _ => none
      else
        (parseNumber (c :: rest)).map (fun pr => (Json.num pr.1, pr.2))

/-- Embeds `json.loads` on the span text (modelled fragment, see `Json`):
`none` stands for a raised `JSONDecodeError`.  Trailing non-whitespace after
the value is an error, as in Python. -/
def jsonLoads (cs : List Char) : Option Json :=
  match parseValue (cs.length + 1) cs with
  | some (v, rest) => if skipWs rest = [] then some v else none
  | none => none

/-- Scan to the first occurrence of `c`, returning the suffix that starts
with it. -/
def dropUntil (c : Char) : List Char → Option (List Char)
  | [] => none
  | x :: xs => if x = c then some (x :: xs) else dropUntil c xs

/-- Span matched by the `re.search` of `extract_json` with pattern
opening-brace, greedy dot-all, closing-brace: the leftmost greedy match runs
from the first opening brace of the text through the last closing brace
(which must lie strictly after that opening brace); `none` when the pattern
does not match. -/
def braceSpan (s : List Char) : Option (List Char) :=
  (dropUntil '\x7b' s).bind (fun u => (dropUntil '\x7d' u.reverse).map List.reverse)

/-- Embeds `extract_json`: search for the brace span and decode it.  Any
failure — no regex match (`AttributeError` on `.group()`) or a decode error —
is caught by the bare `except` and yields `none` (Python `None`). -/
def extract_json (raw_text : String) : Option Json :=
  match braceSpan raw_text.toList with
  | some span => jsonLoads span
  | none => none

/-- Specification-side description of the selected span, following the spec
verbatim: the span runs from the first opening brace of the text (no opening
brace before it) through the last closing brace (no closing brace after it),
the two at distinct positions. -/
def spanIsFirstToLast (s t : List Char) : Prop :=
  ∃ pre post, s = pre ++ t ++ post ∧ '\x7b' ∉ pre ∧ t.head? = some '\x7b' ∧
    '\x7d' ∉ post ∧ t.getLast? = some '\x7d' ∧ 2 ≤ t.length

/-- Python truthiness test `not result` on a decoded value. -/
def pyFalsy : Json → Bool
  | Json.null => true
  | Json.bool b => !b
  | Json.num n => n == 0
  | Json.str s => s.isEmpty
  | Json.arr l => l.isEmpty
  | Json.obj l => l.isEmpty

/-- Failure-log line for one chunk (the source writes it followed by a blank
line; the log is modelled as the list of its lines). -/
def failMsg (cid : Nat) (e : String) : String :=
  "Chunk " ++ toString cid ++ " failed: " ++ e

/-- Prompt template of `parse_chunks_with_ollama` (the f-string), as a
function of the stripped chunk text. -/
def buildPrompt (text : String) : String :=
  "\nYou are an intelligent document parser for oil trading documents.\n\nAnalyze the following document text and extract the following fields. Respond ONLY with a valid JSON object, no explanations.\n\nDocument text:\n\"\"\"" ++
    text ++
    "\"\"\"\n\nJSON format:\n\x7b\n  \"document_type\": \"Invoice | Bill of Lading | Certificate\",\n  \"invoice_number\": \"\",\n  \"issue_date\": \"\",\n  \"due_date\": \"\",\n  \"buyer\": \"\",\n  \"seller\": \"\",\n  \"total_amount_usd\": \"\",\n  \"vessel_name\": \"\",\n  \"bbl_quantity\": \"\",\n  \"bl_date\": \"\",\n  \"port_of_loading\": \"\",\n  \"port_of_discharge\": \"\",\n  \"suggested_filename\": \"\"\n\x7d\n"

/-- Python whitespace, for `str.strip()`. -/
def pyWs (c : Char) : Bool :=
  c == ' ' || c == '\t' || c == '\n' || c == '\r' || c == '\x0b' || c == '\x0c'

/-- Embeds Python `str.strip()` on the character list. -/
def trimChars (s : List Char) : List Char :=
  ((s.dropWhile pyWs).reverse.dropWhile pyWs).reverse

/-- Per-chunk outcome of the loop body of `parse_chunks_with_ollama`. -/
inductive ChunkOutcome where
  | skipped
  | ok (record : Json)
  | failed (line : String)
deriving Repr

/-- Loop body of `parse_chunks_with_ollama` for one chunk.  `oracle` is the
external `ollama.chat` collaborator: it takes the prompt and returns the
response content, or a transport/runtime error; any exception inside the
`try` block is caught and becomes one failure-log line.  The final match arm
(a truthy non-dict decode result) cannot arise, since an `extract_json` span
starts with an opening brace and so a successful decode is a dict; it stands
for the `TypeError` Python would raise on the item assignment there. -/
def runChunk (oracle : String → Except String String) (c : Chunk) : ChunkOutcome :=
  let text := String.mk (trimChars c.text.toList)
  if text.length < 50 then ChunkOutcome.skipped
  else
    match oracle (buildPrompt text) with
    | Except.error e => ChunkOutcome.failed (failMsg c.chunk_id e)
    | Except.ok content =>
      match extract_json content with
      | none => ChunkOutcome.failed (failMsg c.chunk_id ("Could not extract valid JSON"))
      | some result =>
        if pyFalsy result then
          ChunkOutcome.failed (failMsg c.chunk_id ("Could not extract valid JSON"))
        else
          match result with
          | Json.obj members =>
            ChunkOutcome.ok (Json.obj (setKey
              (setKey members ("chunk_id") (Json.num (c.chunk_id : Int)))
              ("pages") (Json.arr (c.pages.map Json.num))))
          | _ => ChunkOutcome.failed (failMsg c.chunk_id ("TypeError"))

/-- Embeds the chunk loop of `parse_chunks_with_ollama`: process the chunks
in order, accumulating the parsed records and the failure-log lines (the
`sleep` pacing has no data effect and is not modelled). -/
def parse_chunks_with_ollama (oracle : String → Except String String) :
    List Chunk → List Json × List String
  | [] => ([], [])
  | c :: cs =>
    let tailRes := parse_chunks_with_ollama oracle cs
    match runChunk oracle c with
    | ChunkOutcome.skipped => tailRes
    | ChunkOutcome.ok r => (r :: tailRes.1, tailRes.2)
    | ChunkOutcome.failed m => (tailRes.1, m :: tailRes.2)

/-- Characters removed by the `re.sub` of `sanitize_filename`: backslash,
slash, star, question mark, colon, double quote, angle brackets, pipe. -/
def illegalChars : List Char := ['\\', '/', '*', '?', ':', '"', '<', '>', '|']

/-- Embeds the inner `sanitize_filename` of `split_pdf_by_chunks`:
`name.strip().replace(" ", "_")`, remove the filesystem-illegal characters,
and fall back to `"document"` when the result is empty. -/
def sanitize_filename (name : List Char) : List Char :=
  let replaced := (trimChars name).map (fun c => if c = ' ' then '_' else c)
  let cleaned := replaced.filter (fun c => !(illegalChars.contains c))
  if cleaned = [] then "document".toList else cleaned

/-- Filename derivation of `split_pdf_by_chunks` for one record, as a
function of its `suggested_filename` (empty stands for missing or falsy),
`document_type` (likewise) and `chunk_id`: the `doc_type` normalization, the
`raw_filename` fallback, `sanitize_filename`, and the `.pdf` extension
check. -/
def split_filename (suggested document_type : List Char) (chunk_id : Nat) : List Char :=
  let doc_type :=
    ((if document_type = [] then "unknown".toList else document_type).map Char.toLower).map
      (fun c => if c = ' ' then '_' else c)
  let raw_filename :=
    if suggested = [] then doc_type ++ '_' :: (toString chunk_id).toList else suggested
  let f := sanitize_filename raw_filename
  if ".pdf".toList.isSuffixOf f then f else f ++ ".pdf".toList

/-- Fallback output identifier of `split_pdf_by_chunks` when
`suggested_filename` is missing or falsy: the lowercased, space-normalized
document type joined to the chunk id, Python
`f"\x7bdoc_type\x7d_\x7bchunk['chunk_id']\x7d"`. -/
def fallback_identifier (document_type : List Char) (chunk_id : Nat) : List Char :=
  (((if document_type = [] then "unknown".toList else document_type).map Char.toLower).map
    (fun c => if c = ' ' then '_' else c)) ++ '_' :: (toString chunk_id).toList

/-- Inserting a page permutes the insertion cons. -/
theorem insertByPage_perm (p : Page) (l : List Page) :
    List.Perm (insertByPage p l) (p :: l) := by
  induction l with
  | nil => exact List.Perm.refl _
  | cons q qs ih =>
    by_cases hq : q.page < p.page
    · simp only [insertByPage, if_pos hq]
      exact (ih.cons q).trans (List.Perm.swap p q qs)
    · simp only [insertByPage, if_neg hq]
      exact List.Perm.refl _

/-- The stable sort permutes its input. -/
theorem sortByPage_perm (l : List Page) : List.Perm (sortByPage l) l := by
  induction l with
  | nil => exact List.Perm.refl _
  | cons x xs ih => exact (insertByPage_perm x (sortByPage xs)).trans (ih.cons x)

/-- Insertion preserves sortedness by page number. -/
theorem insertByPage_sorted (p : Page) (l : List Page)
    (hl : l.Pairwise (fun a b => a.page ≤ b.page)) :
    (insertByPage p l).Pairwise (fun a b => a.page ≤ b.page) := by
  induction l with
  | nil => simp [insertByPage]
  | cons q qs ih =>
    rw [List.pairwise_cons] at hl
    by_cases hq : q.page < p.page
    · simp only [insertByPage, if_pos hq]
      rw [List.pairwise_cons]
      refine ⟨?_, ih hl.2⟩
      intro b hb
      rcases List.mem_cons.mp ((insertByPage_perm p qs).mem_iff.mp hb) with hb | hb
      · rw [hb]; omega
      · exact hl.1 b hb
    · simp only [insertByPage, if_neg hq]
      rw [List.pairwise_cons]
      refine ⟨?_, List.pairwise_cons.mpr hl⟩
      intro b hb
      rcases List.mem_cons.mp hb with hb | hb
      · rw [hb]; omega
      · have := hl.1 b hb; omega

/-- The sort is sorted ascending by page number. -/
theorem sortByPage_sorted (l : List Page) :
    (sortByPage l).Pairwise (fun a b => a.page ≤ b.page) := by
  induction l with
  | nil => simp [sortByPage]
  | cons x xs ih => exact insertByPage_sorted x (sortByPage xs) ih

/-- Unfolding of the leading-range arm of the loop, in the `pages[i:i+3]` /
`i += 4` form of the source. -/
theorem chunkLoop_invoice_step (p : Page) (rest : List Page) (cid : Nat) (h : p.page ≤ 24) :
    chunkLoop (p :: rest) cid =
      { chunk_id := cid, type_hint := "invoice",
        pages := ((p :: rest).take 3).map Page.page,
        text := joinTexts ((p :: rest).take 3) } :: chunkLoop (rest.drop 3) (cid + 1) := by
  match rest with
  | [] => simp [chunkLoop, h]
  | [q] => simp [chunkLoop, h]
  | [q, r] => simp [chunkLoop, h]
  | q :: r :: s :: rest3 => simp [chunkLoop, h]

/-- Unfolding of the middle-range arm of the loop. -/
theorem chunkLoop_bol_step (p : Page) (rest : List Page) (cid : Nat)
    (h1 : ¬ p.page ≤ 24) (h2 : p.page ≤ 38) :
    chunkLoop (p :: rest) cid =
      { chunk_id := cid, type_hint := "bol", pages := [p.page], text := p.text } ::
        chunkLoop rest (cid + 1) := by
  conv_lhs => rw [chunkLoop.eq_def]
  simp [h1, h2]

/-- Unfolding of the trailing-range arm of the loop, in the `i += 2` /
`i += 1` form of the source. -/
theorem chunkLoop_cert_step (p : Page) (rest : List Page) (cid : Nat) (h : 39 ≤ p.page) :
    chunkLoop (p :: rest) cid =
      if p.is_blank then chunkLoop rest cid
      else { chunk_id := cid, type_hint := "certificate", pages := [p.page], text := p.text } ::
        chunkLoop (rest.drop 1) (cid + 1) := by
  have h1 : ¬ p.page ≤ 24 := by omega
  have h2 : ¬ p.page ≤ 38 := by omega
  match rest with
  | [] =>
    by_cases hb : p.is_blank
    · conv_lhs => rw [chunkLoop.eq_def]
      simp [chunkLoop, h1, h2, hb]
    · conv_lhs => rw [chunkLoop.eq_def]
      simp [chunkLoop, h1, h2, hb]
  | s :: rest2 =>
    by_cases hb : p.is_blank
    · conv_lhs => rw [chunkLoop.eq_def]
      simp [chunkLoop, h1, h2, hb]
    · conv_lhs => rw [chunkLoop.eq_def]
      simp [chunkLoop, h1, h2, hb]

/-- Unfolding of the leading-range arm of the skipped-page companion. -/
theorem skippedLoop_invoice_step (p : Page) (rest : List Page) (h : p.page ≤ 24) :
    skippedLoop (p :: rest) =
      ((rest.drop 2).take 1).map Page.page ++ skippedLoop (rest.drop 3) := by
  match rest with
  | [] => simp [skippedLoop, h]
  | [q] => simp [skippedLoop, h]
  | [q, r] => simp [skippedLoop, h]
  | q :: r :: s :: rest3 => simp [skippedLoop, h]

/-- Unfolding of the middle-range arm of the skipped-page companion. -/
theorem skippedLoop_bol_step (p : Page) (rest : List Page)
    (h1 : ¬ p.page ≤ 24) (h2 : p.page ≤ 38) :
    skippedLoop (p :: rest) = skippedLoop rest := by
  conv_lhs => rw [skippedLoop.eq_def]
  simp [h1, h2]

/-- Unfolding of the trailing-range arm of the skipped-page companion. -/
theorem skippedLoop_cert_step (p : Page) (rest : List Page) (h : 39 ≤ p.page) :
    skippedLoop (p :: rest) =
      if p.is_blank then p.page :: skippedLoop rest
      else (rest.take 1).map Page.page ++ skippedLoop (rest.drop 1) := by
  have h1 : ¬ p.page ≤ 24 := by omega
  have h2 : ¬ p.page ≤ 38 := by omega
  match rest with
  | [] =>
    by_cases hb : p.is_blank
    · conv_lhs => rw [skippedLoop.eq_def]
      simp [skippedLoop, h1, h2, hb]
    · conv_lhs => rw [skippedLoop.eq_def]
      simp [skippedLoop, h1, h2, hb]
  | s :: rest2 =>
    by_cases hb : p.is_blank
    · conv_lhs => rw [skippedLoop.eq_def]
      simp [skippedLoop, h1, h2, hb]
    · conv_lhs => rw [skippedLoop.eq_def]
      simp [skippedLoop, h1, h2, hb]
/-- Pure list bookkeeping used to assemble the invoice and certificate cases
of the partition lemma. -/
theorem perm_block_assemble {α : Type} (A J K S D : List α) (h : List.Perm (J ++ S) D) :
    List.Perm ((A ++ J) ++ (K ++ S)) (A ++ (K ++ D)) := by
  have h1 : List.Perm (J ++ (K ++ S)) (K ++ (J ++ S)) := by
    rw [← List.append_assoc, ← List.append_assoc]
    exact List.perm_append_comm.append_right S
  have h2 : List.Perm (J ++ (K ++ S)) (K ++ D) := h1.trans (List.Perm.append_left K h)
  rw [List.append_assoc]
  exact List.Perm.append_left A h2

/-- Partition property of the chunking loop: the chunk pages form a sublist
of the traversed pages (no reordering, no duplication from a duplicate-free
input), and together with the skipped pages they are a permutation of the
traversed pages. -/
theorem chunkLoop_partition :
    ∀ (n : Nat) (l : List Page), l.length ≤ n → ∀ cid : Nat,
      List.Sublist (((chunkLoop l cid).map Chunk.pages).flatten) (l.map Page.page) ∧
      List.Perm ((((chunkLoop l cid).map Chunk.pages).flatten) ++ skippedLoop l)
        (l.map Page.page) := by
  intro n
  induction n with
  | zero =>
    intro l hl cid
    match l with
    | [] => simp [chunkLoop, skippedLoop]
    | p :: rest => simp at hl
  | succ n ih =>
    intro l hl cid
    match l with
    | [] => simp [chunkLoop, skippedLoop]
    | p :: rest =>
      simp only [List.length_cons] at hl
      by_cases h24 : p.page ≤ 24
      · rw [chunkLoop_invoice_step p rest cid h24, skippedLoop_invoice_step p rest h24]
        have hlen : (rest.drop 3).length ≤ n := by
          simp only [List.length_drop]
          omega
        obtain ⟨ihs, ihp⟩ := ih (rest.drop 3) hlen (cid + 1)
        have hds : rest.drop 3 = (rest.drop 2).drop 1 := by simp [List.drop_drop]
        have heq : (((p :: rest).take 3).map Page.page) ++ (((p :: rest).drop 3).map Page.page)
            = (p :: rest).map Page.page := by
          rw [← List.map_append, List.take_append_drop]
        have hK : (((rest.drop 2).take 1).map Page.page) ++ ((rest.drop 3).map Page.page)
            = ((p :: rest).drop 3).map Page.page := by
          rw [List.drop_succ_cons, ← List.map_append]
          congr 1
          rw [hds, List.take_append_drop]
        simp only [List.map_cons, List.flatten_cons]
        rw [← List.map_cons Page.page p rest]
        constructor
        · have hsub : List.Sublist (rest.drop 3) ((p :: rest).drop 3) := by
            rw [List.drop_succ_cons, hds]
            exact List.drop_sublist 1 (rest.drop 2)
          have hJ2 := ihs.trans (hsub.map Page.page)
          rw [← heq]
          exact (List.append_sublist_append_left _).mpr hJ2
        · rw [← heq, ← hK]
          exact perm_block_assemble _ _ _ _ _ ihp
      · by_cases h38 : p.page ≤ 38
        · rw [chunkLoop_bol_step p rest cid h24 h38, skippedLoop_bol_step p rest h24 h38]
          have hlen : rest.length ≤ n := by omega
          obtain ⟨ihs, ihp⟩ := ih rest hlen (cid + 1)
          simp only [List.map_cons, List.flatten_cons, List.singleton_append, List.cons_append]
          exact ⟨(List.cons_sublist_cons).mpr ihs, (ihp.cons p.page)⟩
        · have h39 : 39 ≤ p.page := by omega
          rw [chunkLoop_cert_step p rest cid h39, skippedLoop_cert_step p rest h39]
          by_cases hb : p.is_blank
          · rw [if_pos hb, if_pos hb]
            have hlen : rest.length ≤ n := by omega
            obtain ⟨ihs, ihp⟩ := ih rest hlen cid
            simp only [List.map_cons]
            constructor
            · exact ihs.trans (List.sublist_cons_self p rest |>.map Page.page)
            · exact List.perm_middle.trans (ihp.cons p.page)
          · rw [if_neg hb, if_neg hb]
            have hlen : (rest.drop 1).length ≤ n := by
              simp only [List.length_drop]
              omega
            obtain ⟨ihs, ihp⟩ := ih (rest.drop 1) hlen (cid + 1)
            have hK : ((rest.take 1).map Page.page) ++ ((rest.drop 1).map Page.page)
                = rest.map Page.page := by
              rw [← List.map_append, List.take_append_drop]
            simp only [List.map_cons, List.flatten_cons]
            constructor
            · have hJ2 := ihs.trans ((List.drop_sublist 1 rest).map Page.page)
              simp only [List.singleton_append]
              exact (List.cons_sublist_cons).mpr hJ2
            · rw [show p.page :: rest.map Page.page = [p.page] ++ rest.map Page.page from rfl,
                ← hK]
              exact perm_block_assemble _ _ _ _ _ ihp

/-- Chunk identifiers of the loop output count up from the starting counter,
one per emitted chunk. -/
theorem chunkLoop_ids :
    ∀ (n : Nat) (l : List Page), l.length ≤ n → ∀ cid : Nat,
      (chunkLoop l cid).map Chunk.chunk_id = List.range' cid ((chunkLoop l cid).length) := by
  intro n
  induction n with
  | zero =>
    intro l hl cid
    match l with
    | [] => simp [chunkLoop]
    | p :: rest => simp at hl
  | succ n ih =>
    intro l hl cid
    match l with
    | [] => simp [chunkLoop]
    | p :: rest =>
      simp only [List.length_cons] at hl
      by_cases h24 : p.page ≤ 24
      · rw [chunkLoop_invoice_step p rest cid h24]
        have hlen : (rest.drop 3).length ≤ n := by
          simp only [List.length_drop]
          omega
        simp only [List.map_cons, List.length_cons, List.range'_succ]
        rw [ih (rest.drop 3) hlen (cid + 1)]
      · by_cases h38 : p.page ≤ 38
        · rw [chunkLoop_bol_step p rest cid h24 h38]
          have hlen : rest.length ≤ n := by omega
          simp only [List.map_cons, List.length_cons, List.range'_succ]
          rw [ih rest hlen (cid + 1)]
        · have h39 : 39 ≤ p.page := by omega
          rw [chunkLoop_cert_step p rest cid h39]
          by_cases hb : p.is_blank
          · rw [if_pos hb]
            have hlen : rest.length ≤ n := by omega
            exact ih rest hlen cid
          · rw [if_neg hb]
            have hlen : (rest.drop 1).length ≤ n := by
              simp only [List.length_drop]
              omega
            simp only [List.map_cons, List.length_cons, List.range'_succ]
            rw [ih (rest.drop 1) hlen (cid + 1)]
/-- C1: for every ordered page sequence whose cursor sits on a page numbered
at most 24, the Segmenter emits one Chunk tagged invoice containing up to 3
consecutive pages starting at the cursor and advances the cursor by 4; in
particular for pages 1, 2, 3 all non-blank it produces exactly one invoice
Chunk with pages [1, 2, 3] and chunk id 1. -/
theorem claim_c1 (p : Page) (rest : List Page) (cid : Nat) (h : p.page ≤ 24) :
    chunkLoop (p :: rest) cid =
      { chunk_id := cid, type_hint := "invoice",
        pages := ((p :: rest).take 3).map Page.page,
        text := joinTexts ((p :: rest).take 3) } :: chunkLoop (rest.drop 3) (cid + 1)
    ∧ chunk_documents [⟨1, "alpha", false⟩, ⟨2, "beta", false⟩, ⟨3, "gamma", false⟩] =
      [{ chunk_id := 1, type_hint := "invoice", pages := [1, 2, 3],
         text := "alpha\nbeta\ngamma" }] :=
  ⟨chunkLoop_invoice_step p rest cid h, by decide⟩

/-- Witness for C1 at a concrete one-page input. -/
theorem claim_c1_witness :
    chunkLoop [({ page := 10, text := "x", is_blank := false } : Page)] 5 =
      [{ chunk_id := 5, type_hint := "invoice", pages := [10], text := "x" }] := by
  have h := (claim_c1 { page := 10, text := "x", is_blank := false } [] 5 (by decide)).1
  exact h.trans (by decide)

/-- C2: for every input with uniquely numbered pages, the Segmenter chunks
are pairwise disjoint in page membership, no page number is duplicated or
reordered within or across chunks (their concatenation is a duplicate-free
sublist of the sorted input pages), and together with the deliberately
skipped pages (the advance-by-4 and advance-by-2 skips and the dropped blank
trailing-range pages, collected by `skippedLoop`) they are a permutation of
the input pages. -/
theorem claim_c2 (input : List Page) (h : (input.map Page.page).Nodup) :
    (((chunk_documents input).map Chunk.pages).flatten).Nodup
    ∧ List.Pairwise List.Disjoint ((chunk_documents input).map Chunk.pages)
    ∧ List.Sublist (((chunk_documents input).map Chunk.pages).flatten)
        ((sortByPage input).map Page.page)
    ∧ List.Perm ((((chunk_documents input).map Chunk.pages).flatten) ++
        skippedLoop (sortByPage input)) ((sortByPage input).map Page.page) := by
  have hperm : List.Perm ((sortByPage input).map Page.page) (input.map Page.page) :=
    (sortByPage_perm input).map Page.page
  have hnd : ((sortByPage input).map Page.page).Nodup := (hperm.nodup_iff).mpr h
  obtain ⟨hsub, hp⟩ := chunkLoop_partition (sortByPage input).length (sortByPage input)
    (Nat.le_refl _) 1
  have hjoin : (((chunkLoop (sortByPage input) 1).map Chunk.pages).flatten).Nodup :=
    hsub.nodup hnd
  have hpair := (List.nodup_flatten.mp hjoin).2
  exact ⟨hjoin, hpair, hsub, hp⟩

/-- Witness for C2 at a concrete four-page input covering all three ranges. -/
theorem claim_c2_witness :
    (((chunk_documents [⟨41, "r", false⟩, ⟨40, "", true⟩, ⟨1, "a", false⟩,
        ⟨2, "b", false⟩]).map Chunk.pages).flatten).Nodup
    ∧ List.Pairwise List.Disjoint ((chunk_documents [⟨41, "r", false⟩, ⟨40, "", true⟩,
        ⟨1, "a", false⟩, ⟨2, "b", false⟩]).map Chunk.pages)
    ∧ List.Sublist (((chunk_documents [⟨41, "r", false⟩, ⟨40, "", true⟩, ⟨1, "a", false⟩,
        ⟨2, "b", false⟩]).map Chunk.pages).flatten)
        ((sortByPage [⟨41, "r", false⟩, ⟨40, "", true⟩, ⟨1, "a", false⟩,
          ⟨2, "b", false⟩]).map Page.page)
    ∧ List.Perm ((((chunk_documents [⟨41, "r", false⟩, ⟨40, "", true⟩, ⟨1, "a", false⟩,
        ⟨2, "b", false⟩]).map Chunk.pages).flatten) ++
        skippedLoop (sortByPage [⟨41, "r", false⟩, ⟨40, "", true⟩, ⟨1, "a", false⟩,
          ⟨2, "b", false⟩]))
        ((sortByPage [⟨41, "r", false⟩, ⟨40, "", true⟩, ⟨1, "a", false⟩,
          ⟨2, "b", false⟩]).map Page.page) :=
  claim_c2 [⟨41, "r", false⟩, ⟨40, "", true⟩, ⟨1, "a", false⟩, ⟨2, "b", false⟩] (by decide)

/-- C3 counterexample: at the input with pages 24, 25, 26 (all non-blank) the
cursor sits on page 24 and the emitted invoice Chunk has pages [24, 25, 26],
containing pages numbered greater than 24 — so an invoice group is not
limited to the pages before the leading-range boundary. -/
theorem claim_c3_counterexample :
    chunk_documents [⟨24, "a", false⟩, ⟨25, "b", false⟩, ⟨26, "c", false⟩] =
      [{ chunk_id := 1, type_hint := "invoice", pages := [24, 25, 26],
         text := "a\nb\nc" }] := by
  decide

/-- C3 amended: an invoice group started at a cursor page numbered at most 24
takes the next up to 3 entries of the sequence regardless of the
leading-range boundary; it contains fewer than 3 pages exactly when fewer
than 3 entries remain in the whole sequence, and it may therefore contain
pages numbered greater than 24. -/
theorem claim_c3_amended (p : Page) (rest : List Page) (cid : Nat) (h : p.page ≤ 24) :
    (chunkLoop (p :: rest) cid).head? =
      some { chunk_id := cid, type_hint := "invoice",
             pages := ((p :: rest).take 3).map Page.page,
             text := joinTexts ((p :: rest).take 3) }
    ∧ (((p :: rest).take 3).map Page.page).length = min 3 (p :: rest).length := by
  rw [chunkLoop_invoice_step p rest cid h]
  refine ⟨rfl, ?_⟩
  simp only [List.length_map, List.length_take, List.length_cons]

/-- Witness for the amended C3 at the concrete boundary-straddling input. -/
theorem claim_c3_amended_witness :
    (chunkLoop [⟨24, "a", false⟩, ⟨25, "b", false⟩, ⟨26, "c", false⟩] 1).head? =
      some { chunk_id := 1, type_hint := "invoice", pages := [24, 25, 26],
             text := "a\nb\nc" } := by
  have h := claim_c3_amended ⟨24, "a", false⟩ [⟨25, "b", false⟩, ⟨26, "c", false⟩] 1 (by decide)
  exact h.1.trans (by decide)

/-- C4: the chunk_id values of the Segmenter output, read in emission order,
are exactly 1, 2, 3, ... with no gaps: the counter starts at 1 and is
incremented once per emitted Chunk, never on a dropped blank page. -/
theorem claim_c4 (input : List Page) :
    (chunk_documents input).map Chunk.chunk_id =
      List.range' 1 ((chunk_documents input).length) :=
  chunkLoop_ids (sortByPage input).length (sortByPage input) (Nat.le_refl _) 1

/-- Witness for C4 at an input with an invoice group, intra-range skips and a
dropped blank page. -/
theorem claim_c4_witness :
    (chunk_documents [⟨1, "a", false⟩, ⟨2, "b", false⟩, ⟨3, "c", false⟩, ⟨30, "m", false⟩,
      ⟨40, "", true⟩, ⟨41, "z", false⟩]).map Chunk.chunk_id = [1, 2] :=
  (claim_c4 [⟨1, "a", false⟩, ⟨2, "b", false⟩, ⟨3, "c", false⟩, ⟨30, "m", false⟩,
    ⟨40, "", true⟩, ⟨41, "z", false⟩]).trans (by decide)

/-- C5: at a cursor page numbered at least 39, a non-blank page becomes its
own single-page certificate Chunk and the cursor advances by 2, while a blank
page produces no Chunk and the cursor advances by 1; in particular page 40
blank and page 41 non-blank yield exactly one certificate Chunk for
page 41. -/
theorem claim_c5 (p : Page) (rest : List Page) (cid : Nat) (h : 39 ≤ p.page) :
    (chunkLoop (p :: rest) cid =
      if p.is_blank then chunkLoop rest cid
      else { chunk_id := cid, type_hint := "certificate", pages := [p.page],
             text := p.text } :: chunkLoop (rest.drop 1) (cid + 1))
    ∧ chunk_documents [⟨40, "", true⟩, ⟨41, "certificate text", false⟩] =
      [{ chunk_id := 1, type_hint := "certificate", pages := [41],
         text := "certificate text" }] :=
  ⟨chunkLoop_cert_step p rest cid h, by decide⟩

/-- Witness for C5 at a concrete one-page non-blank trailing input. -/
theorem claim_c5_witness :
    chunkLoop [({ page := 39, text := "t", is_blank := false } : Page)] 2 =
      [{ chunk_id := 2, type_hint := "certificate", pages := [39], text := "t" }] := by
  have h := (claim_c5 { page := 39, text := "t", is_blank := false } [] 2 (by decide)).1
  exact h.trans (by decide)
/-- C6 counterexample: ingestion accepts a duplicated page number and a
non-positive page number without any error, instead of failing — the sort at
the top of `chunk_documents` performs no validation. -/
theorem claim_c6_counterexample :
    ingest [{ page := some 1, text := "a", is_blank := false },
            { page := some 1, text := "b", is_blank := false }] =
      Except.ok [{ page := 1, text := "a", is_blank := false },
                 { page := 1, text := "b", is_blank := false }]
    ∧ ingest [{ page := some (-3), text := "x", is_blank := true }] =
      Except.ok [{ page := -3, text := "x", is_blank := true }] :=
  ⟨rfl, rfl⟩

/-- C6 amended: ingestion raises a fatal, propagating error exactly when some
record is missing its page number (a Python KeyError from the sort key, not a
named MalformedInputError); duplicated or non-positive page numbers are
accepted silently; whenever every page number is present the result is the
records stably sorted ascending by page number, a permutation of the
input. -/
theorem claim_c6_amended :
    (∀ l : List RawPage, (∃ r ∈ l, r.page = none) →
      ingest l = Except.error ("KeyError: page"))
    ∧ (∀ l : List RawPage, (∀ r ∈ l, r.page.isSome) →
        ingest l = Except.ok (sortByPage (l.map rawToPage))
        ∧ List.Pairwise (fun a b : Page => a.page ≤ b.page) (sortByPage (l.map rawToPage))
        ∧ List.Perm (sortByPage (l.map rawToPage)) (l.map rawToPage)) := by
  constructor
  · intro l hmiss
    obtain ⟨r, hr, hnone⟩ := hmiss
    have hall : ¬ (l.all (fun r => r.page.isSome) = true) := by
      rw [List.all_eq_true]
      intro hall
      have := hall r hr
      rw [hnone] at this
      simp at this
    simp only [ingest, if_neg hall]
  · intro l hall
    refine ⟨?_, sortByPage_sorted _, sortByPage_perm _⟩
    have hcond : l.all (fun r => r.page.isSome) = true := by
      rw [List.all_eq_true]
      exact hall
    simp only [ingest, if_pos hcond]

/-- Witness for the amended C6: a missing page number propagates an error; an
unsorted well-numbered input comes back sorted. -/
theorem claim_c6_witness :
    ingest [{ page := none, text := "a", is_blank := false }] =
      Except.error ("KeyError: page")
    ∧ ingest [{ page := some 2, text := "b", is_blank := false },
              { page := some 1, text := "a", is_blank := false }] =
      Except.ok [{ page := 1, text := "a", is_blank := false },
                 { page := 2, text := "b", is_blank := false }] := by
  constructor
  · exact claim_c6_amended.1 [{ page := none, text := "a", is_blank := false }]
      ⟨{ page := none, text := "a", is_blank := false }, by decide, rfl⟩
  · have h := (claim_c6_amended.2 [{ page := some 2, text := "b", is_blank := false },
      { page := some 1, text := "a", is_blank := false }] (by decide)).1
    exact h.trans (by rfl)
/-- Characterization of the scan: it returns exactly the suffix that starts
at the first occurrence of the character. -/
theorem dropUntil_eq_some_iff (c : Char) :
    ∀ (s u : List Char), dropUntil c s = some u ↔
      ∃ pre, s = pre ++ u ∧ c ∉ pre ∧ u.head? = some c := by
  intro s
  induction s with
  | nil =>
    intro u
    simp only [dropUntil]
    constructor
    · intro h
      exact absurd h (by simp)
    · rintro ⟨pre, hs, hpre, hh⟩
      obtain ⟨hp, hu⟩ := List.append_eq_nil.mp hs.symm
      subst hu
      simp at hh
  | cons x xs ih =>
    intro u
    by_cases hx : x = c
    · simp only [dropUntil, if_pos hx]
      constructor
      · intro h
        have hu : x :: xs = u := by injection h
        subst hu
        exact ⟨[], rfl, by simp, by rw [List.head?_cons, hx]⟩
      · rintro ⟨pre, hs, hpre, hh⟩
        cases pre with
        | nil =>
          simp only [List.nil_append] at hs
          rw [hs]
        | cons a pre2 =>
          rw [List.cons_append] at hs
          injection hs with h1 h2
          apply absurd _ hpre
          have hac : a = c := by rw [← h1]; exact hx
          rw [← hac]
          exact List.mem_cons_self a pre2
    · simp only [dropUntil, if_neg hx]
      rw [ih u]
      constructor
      · rintro ⟨pre, hs, hpre, hh⟩
        refine ⟨x :: pre, by rw [List.cons_append, hs], ?_, hh⟩
        intro hmem
        rcases List.mem_cons.mp hmem with hmem | hmem
        · exact hx hmem.symm
        · exact hpre hmem
      · rintro ⟨pre, hs, hpre, hh⟩
        cases pre with
        | nil =>
          simp only [List.nil_append] at hs
          rw [← hs] at hh
          rw [List.head?_cons] at hh
          injection hh with hh2
          exact absurd hh2 hx
        | cons a pre2 =>
          rw [List.cons_append] at hs
          injection hs with h1 h2
          refine ⟨pre2, h2, ?_, hh⟩
          intro hmem
          exact hpre (List.mem_cons_of_mem a hmem)

/-- The regex span of `extract_json` is exactly the first-opening-brace to
last-closing-brace span described by the spec. -/
theorem braceSpan_eq_some_iff (s t : List Char) :
    braceSpan s = some t ↔ spanIsFirstToLast s t := by
  unfold braceSpan spanIsFirstToLast
  rw [Option.bind_eq_some]
  constructor
  · rintro ⟨u, hu, hmap⟩
    rw [Option.map_eq_some'] at hmap
    obtain ⟨r, hr, ht⟩ := hmap
    obtain ⟨pre, hs, hpre, hhead⟩ := (dropUntil_eq_some_iff '\x7b' s u).mp hu
    obtain ⟨q, hq, hqnot, hrhead⟩ := (dropUntil_eq_some_iff '\x7d' u.reverse r).mp hr
    have hu2 : u = r.reverse ++ q.reverse := by
      rw [← List.reverse_reverse u, hq, List.reverse_append]
    have hrne : r ≠ [] := by
      intro h
      rw [h] at hrhead
      simp at hrhead
    have hthead : t.head? = some '\x7b' := by
      rw [hu2] at hhead
      rw [← ht]
      cases hrev : r.reverse with
      | nil => exact absurd (List.reverse_eq_nil_iff.mp hrev) hrne
      | cons a as =>
        rw [hrev, List.cons_append, List.head?_cons] at hhead
        rw [List.head?_cons]
        exact hhead
    have htlast : t.getLast? = some '\x7d' := by
      rw [← ht, List.getLast?_reverse]
      exact hrhead
    refine ⟨pre, q.reverse, ?_, hpre, hthead, ?_, htlast, ?_⟩
    · rw [hs, hu2, ← ht, List.append_assoc]
    · intro hmem
      exact hqnot (List.mem_reverse.mp hmem)
    · match t, hthead, htlast with
      | [], hthead, _ => simp at hthead
      | [a], hthead, htlast =>
        rw [List.head?_cons] at hthead
        rw [List.getLast?_singleton] at htlast
        injection hthead with h1
        injection htlast with h2
        exact absurd (h1.symm.trans h2) (by decide)
      | a :: b :: t2, _, _ => simp only [List.length_cons]; omega
  · rintro ⟨pre, post, hs, hpre, hhead, hpost, hlast, hlen⟩
    refine ⟨t ++ post, ?_, ?_⟩
    · rw [dropUntil_eq_some_iff]
      refine ⟨pre, by rw [hs, List.append_assoc], hpre, ?_⟩
      cases ht : t with
      | nil =>
        rw [ht] at hhead
        simp at hhead
      | cons a as =>
        rw [ht] at hhead
        rw [List.cons_append, List.head?_cons]
        rw [List.head?_cons] at hhead
        exact hhead
    · rw [Option.map_eq_some']
      refine ⟨t.reverse, ?_, by simp⟩
      rw [dropUntil_eq_some_iff]
      refine ⟨post.reverse, by rw [List.reverse_append], ?_, ?_⟩
      · intro hmem
        exact hpost (List.mem_reverse.mp hmem)
      · rw [List.head?_reverse]
        exact hlast
/-- C7: the StructuredResponseParser selects the span from the first opening
brace through the last closing brace of the response text (greedy) and
returns its decoding as structured data, failing exactly when no such span
exists or the span does not decode; on a noisy response carrying one small
object it returns that object, and on a text without braces it fails. -/
theorem claim_c7 :
    (∀ s t : List Char, braceSpan s = some t ↔ spanIsFirstToLast s t)
    ∧ (∀ (raw : String) (v : Json), extract_json raw = some v ↔
        ∃ t, braceSpan raw.toList = some t ∧ jsonLoads t = some v)
    ∧ extract_json ("noise \x7b\"a\":1\x7d more noise") = some (Json.obj [("a", Json.num 1)])
    ∧ extract_json ("no braces at all") = none := by
  refine ⟨braceSpan_eq_some_iff, ?_, by rfl, by rfl⟩
  intro raw v
  unfold extract_json
  cases h : braceSpan raw.toList with
  | none => simp
  | some t => simp

/-- Witness for C7: the concrete span of a small noisy text satisfies the
first-to-last-brace description. -/
theorem claim_c7_witness :
    spanIsFirstToLast ("x\x7by\x7dz".toList) ("\x7by\x7d".toList) :=
  (claim_c7.1 ("x\x7by\x7dz".toList) ("\x7by\x7d".toList)).mp (by rfl)

/-- Python dict assignment never produces an empty dict. -/
theorem setKey_ne_nil (l : List (String × Json)) (k : String) (v : Json) :
    setKey l k v ≠ [] := by
  cases l with
  | nil => simp [setKey]
  | cons kv rest =>
    simp only [setKey]
    by_cases h : kv.1 = k
    · rw [if_pos h]
      simp
    · rw [if_neg h]
      simp

/-- Looking up the just-assigned key returns the just-assigned value. -/
theorem lookup_setKey_self (l : List (String × Json)) (k : String) (v : Json) :
    List.lookup k (setKey l k v) = some v := by
  induction l with
  | nil => simp [setKey]
  | cons kv rest ih =>
    by_cases h : kv.1 = k
    · rw [setKey, if_pos h, h]
      simp
    · rw [setKey, if_neg h]
      rw [show (kv : String × Json) = (kv.1, kv.2) from rfl, List.lookup_cons]
      have hne : (k == kv.1) = false := by
        rw [beq_eq_false_iff_ne]
        exact fun hh => h hh.symm
      rw [hne]
      exact ih

/-- Assignment to one key leaves the lookup of a different key unchanged. -/
theorem lookup_setKey_ne (l : List (String × Json)) (k k2 : String) (v : Json)
    (h : k2 ≠ k) : List.lookup k2 (setKey l k v) = List.lookup k2 l := by
  induction l with
  | nil =>
    rw [setKey, List.lookup_cons]
    have hne : (k2 == k) = false := by
      rw [beq_eq_false_iff_ne]
      exact h
    rw [hne]
  | cons kv rest ih =>
    by_cases hk : kv.1 = k
    · rw [setKey, if_pos hk]
      rw [show (kv : String × Json) = (kv.1, kv.2) from rfl, List.lookup_cons, List.lookup_cons]
      by_cases h2 : k2 = kv.1
      · have : (k2 == kv.1) = true := by
          rw [beq_iff_eq]
          exact h2
        rw [this]
        exact absurd (h2.trans hk) h
      · have : (k2 == kv.1) = false := by
          rw [beq_eq_false_iff_ne]
          exact h2
        rw [this]
    · rw [setKey, if_neg hk]
      rw [show (kv : String × Json) = (kv.1, kv.2) from rfl, List.lookup_cons, List.lookup_cons]
      cases hbeq : (k2 == kv.1) with
      | true => rfl
      | false => exact ih

/-- The ordered pipeline distributes over list concatenation: records and
failure-log lines of a split run are the concatenations of the two runs'
records and lines — no chunk failure aborts the remainder. -/
theorem pipeline_append (oracle : String → Except String String) (xs ys : List Chunk) :
    parse_chunks_with_ollama oracle (xs ++ ys) =
      ((parse_chunks_with_ollama oracle xs).1 ++ (parse_chunks_with_ollama oracle ys).1,
       (parse_chunks_with_ollama oracle xs).2 ++ (parse_chunks_with_ollama oracle ys).2) := by
  induction xs with
  | nil => simp [parse_chunks_with_ollama]
  | cons c cs ih =>
    simp only [List.cons_append, parse_chunks_with_ollama, List.append_eq]
    rw [ih]
    cases runChunk oracle c <;> simp
/-- Skip arm of the loop body: stripped text shorter than 50 characters. -/
theorem runChunk_short (oracle : String → Except String String) (c : Chunk)
    (h : (String.mk (trimChars c.text.toList)).length < 50) :
    runChunk oracle c = ChunkOutcome.skipped := by
  unfold runChunk
  rw [if_pos h]

/-- Failure arm of the loop body: the oracle call raises. -/
theorem runChunk_oracle_error (oracle : String → Except String String) (c : Chunk)
    (e : String) (h1 : ¬ (String.mk (trimChars c.text.toList)).length < 50)
    (h2 : oracle (buildPrompt (String.mk (trimChars c.text.toList))) = Except.error e) :
    runChunk oracle c = ChunkOutcome.failed (failMsg c.chunk_id e) := by
  unfold runChunk
  rw [if_neg h1, h2]

/-- Failure arm of the loop body: the response does not parse. -/
theorem runChunk_parse_none (oracle : String → Except String String) (c : Chunk)
    (resp : String) (h1 : ¬ (String.mk (trimChars c.text.toList)).length < 50)
    (h2 : oracle (buildPrompt (String.mk (trimChars c.text.toList))) = Except.ok resp)
    (h3 : extract_json resp = none) :
    runChunk oracle c = ChunkOutcome.failed
      (failMsg c.chunk_id ("Could not extract valid JSON")) := by
  unfold runChunk
  rw [if_neg h1, h2]
  simp [h3]

/-- Failure arm of the loop body: the response parses to the falsy empty
object. -/
theorem runChunk_falsy_obj (oracle : String → Except String String) (c : Chunk)
    (resp : String) (h1 : ¬ (String.mk (trimChars c.text.toList)).length < 50)
    (h2 : oracle (buildPrompt (String.mk (trimChars c.text.toList))) = Except.ok resp)
    (h3 : extract_json resp = some (Json.obj [])) :
    runChunk oracle c = ChunkOutcome.failed
      (failMsg c.chunk_id ("Could not extract valid JSON")) := by
  unfold runChunk
  rw [if_neg h1, h2]
  simp [h3, pyFalsy]

/-- The pipeline on a single chunk is the outcome of its loop body. -/
theorem pipeline_single (oracle : String → Except String String) (c : Chunk) :
    parse_chunks_with_ollama oracle [c] =
      match runChunk oracle c with
      | ChunkOutcome.skipped => ([], [])
      | ChunkOutcome.ok r => ([r], [])
      | ChunkOutcome.failed m => ([], [m]) := rfl

/-- C8: the ExtractionPipeline processes chunks in order with exactly three
per-chunk outcomes — a chunk whose stripped text is shorter than 50
characters is skipped silently (no record and no failure-log line); a chunk
whose oracle call or parse fails gets exactly one failure-log line and the
run continues (the pipeline distributes over concatenation, so no failure
aborts the rest); every other chunk appends one successful record. -/
theorem claim_c8 (oracle : String → Except String String) :
    (∀ xs ys : List Chunk, parse_chunks_with_ollama oracle (xs ++ ys) =
      ((parse_chunks_with_ollama oracle xs).1 ++ (parse_chunks_with_ollama oracle ys).1,
       (parse_chunks_with_ollama oracle xs).2 ++ (parse_chunks_with_ollama oracle ys).2))
    ∧ (∀ c : Chunk, (String.mk (trimChars c.text.toList)).length < 50 →
        parse_chunks_with_ollama oracle [c] = ([], []))
    ∧ (∀ (c : Chunk) (e : String), ¬ (String.mk (trimChars c.text.toList)).length < 50 →
        oracle (buildPrompt (String.mk (trimChars c.text.toList))) = Except.error e →
        parse_chunks_with_ollama oracle [c] = ([], [failMsg c.chunk_id e]))
    ∧ (∀ (c : Chunk) (resp : String), ¬ (String.mk (trimChars c.text.toList)).length < 50 →
        oracle (buildPrompt (String.mk (trimChars c.text.toList))) = Except.ok resp →
        extract_json resp = none →
        parse_chunks_with_ollama oracle [c] =
          ([], [failMsg c.chunk_id ("Could not extract valid JSON")]))
    ∧ (∀ (c : Chunk) (r : Json), runChunk oracle c = ChunkOutcome.ok r →
        parse_chunks_with_ollama oracle [c] = ([r], [])) := by
  refine ⟨pipeline_append oracle, ?_, ?_, ?_, ?_⟩
  · intro c hshort
    rw [pipeline_single, runChunk_short oracle c hshort]
  · intro c e hlong horacle
    rw [pipeline_single, runChunk_oracle_error oracle c e hlong horacle]
  · intro c resp hlong horacle hparse
    rw [pipeline_single, runChunk_parse_none oracle c resp hlong horacle hparse]
  · intro c r hok
    rw [pipeline_single, hok]

/-- Witness for C8: a 9-character chunk is skipped with no record and no
failure-log line. -/
theorem claim_c8_witness :
    parse_chunks_with_ollama (fun _ => Except.error ("transport down"))
      [{ chunk_id := 1, type_hint := "invoice", pages := [1], text := "tiny text" }] =
      ([], []) :=
  (claim_c8 (fun _ => Except.error ("transport down"))).2.1
    { chunk_id := 1, type_hint := "invoice", pages := [1], text := "tiny text" } (by decide)

/-- C10: a chunk whose oracle response decodes to a falsy value — in
particular the valid empty object — is treated as failed: one failure-log
line and no record; and every record the pipeline emits is a non-empty
object whose chunk_id and pages entries are set from the source Chunk,
overwriting whatever the oracle produced for those keys. -/
theorem claim_c10 :
    (∀ (oracle : String → Except String String) (c : Chunk) (resp : String),
        ¬ (String.mk (trimChars c.text.toList)).length < 50 →
        oracle (buildPrompt (String.mk (trimChars c.text.toList))) = Except.ok resp →
        extract_json resp = some (Json.obj []) →
        parse_chunks_with_ollama oracle [c] =
          ([], [failMsg c.chunk_id ("Could not extract valid JSON")]))
    ∧ (∀ (oracle : String → Except String String) (c : Chunk) (r : Json),
        runChunk oracle c = ChunkOutcome.ok r →
        ∃ members, r = Json.obj members ∧ members ≠ [] ∧
          List.lookup ("chunk_id") members = some (Json.num (c.chunk_id : Int)) ∧
          List.lookup ("pages") members = some (Json.arr (c.pages.map Json.num))) := by
  constructor
  · intro oracle c resp hlong horacle hparse
    rw [pipeline_single, runChunk_falsy_obj oracle c resp hlong horacle hparse]
  · intro oracle c r hok
    unfold runChunk at hok
    by_cases hshort : (String.mk (trimChars c.text.toList)).length < 50
    · rw [if_pos hshort] at hok
      exact absurd hok (by simp)
    · rw [if_neg hshort] at hok
      split at hok
      next e heq => exact absurd hok (by simp)
      next content heq =>
        split at hok
        next heq2 => exact absurd hok (by simp)
        next result heq2 =>
          by_cases hfal : pyFalsy result
          · rw [if_pos hfal] at hok
            exact absurd hok (by simp)
          · rw [if_neg hfal] at hok
            split at hok
            next members =>
              have hr : Json.obj (setKey
                  (setKey members ("chunk_id") (Json.num (c.chunk_id : Int)))
                  ("pages") (Json.arr (c.pages.map Json.num))) = r := by
                injection hok
              refine ⟨setKey (setKey members ("chunk_id") (Json.num (c.chunk_id : Int)))
                ("pages") (Json.arr (c.pages.map Json.num)), hr.symm, setKey_ne_nil _ _ _,
                ?_, ?_⟩
              · rw [lookup_setKey_ne _ _ _ _ (by decide)]
                exact lookup_setKey_self _ _ _
              · exact lookup_setKey_self _ _ _
            next x hne => exact absurd hok (by simp)

/-- Witness for C10: an oracle answering the empty object on a long chunk
yields one failure-log line and no record. -/
theorem claim_c10_witness :
    parse_chunks_with_ollama (fun _ => Except.ok ("\x7b\x7d"))
      [{ chunk_id := 3, type_hint := "bol", pages := [30],
         text := "0123456789012345678901234567890123456789012345678901234567890" }] =
      ([], [failMsg 3 ("Could not extract valid JSON")]) :=
  claim_c10.1 (fun _ => Except.ok ("\x7b\x7d"))
    { chunk_id := 3, type_hint := "bol", pages := [30],
      text := "0123456789012345678901234567890123456789012345678901234567890" }
    ("\x7b\x7d") (by decide) rfl (by rfl)
/-- Whatever the normalized identifier is, the extension check leaves the
result ending in `.pdf`. -/
theorem ensure_pdf_suffix (f : List Char) :
    ".pdf".toList <:+ (if ".pdf".toList.isSuffixOf f then f else f ++ ".pdf".toList) := by
  split
  next h => exact List.isSuffixOf_iff_suffix.mp h
  next h => exact List.suffix_append _ _

/-- C9: the OutputPartitioner derives the output identifier from
`suggested_filename` when non-empty and otherwise from the lowercased,
space-normalized document type joined with the chunk id; the identifier is
normalized by trimming, replacing spaces with underscores, and stripping
filesystem-illegal characters; an empty normalization is replaced by the
fixed default name; and the final identifier always ends with `.pdf`. -/
theorem claim_c9 :
    (∀ (s d : List Char) (i : Nat), s ≠ [] →
        split_filename s d i =
          (if ".pdf".toList.isSuffixOf (sanitize_filename s) then sanitize_filename s
           else sanitize_filename s ++ ".pdf".toList))
    ∧ (∀ (d : List Char) (i : Nat),
        split_filename [] d i =
          (if ".pdf".toList.isSuffixOf (sanitize_filename (fallback_identifier d i))
           then sanitize_filename (fallback_identifier d i)
           else sanitize_filename (fallback_identifier d i) ++ ".pdf".toList))
    ∧ (∀ (s d : List Char) (i : Nat), ".pdf".toList <:+ split_filename s d i)
    ∧ (∀ name : List Char,
        ((trimChars name).map (fun c => if c = ' ' then '_' else c)).filter
          (fun c => !(illegalChars.contains c)) = [] →
        sanitize_filename name = "document".toList) := by
  refine ⟨?_, ?_, ?_, ?_⟩
  · intro s d i hs
    simp [split_filename, hs]
  · intro d i
    simp [split_filename, fallback_identifier]
  · intro s d i
    simp only [split_filename]
    exact ensure_pdf_suffix _
  · intro name h
    simp only [sanitize_filename]
    rw [h]
    rfl

/-- Witness for C9: a concrete suggested filename and a concrete fallback. -/
theorem claim_c9_witness :
    split_filename ("My Invoice?".toList) ("Certificate".toList) 7 =
      (if ".pdf".toList.isSuffixOf (sanitize_filename ("My Invoice?".toList))
       then sanitize_filename ("My Invoice?".toList)
       else sanitize_filename ("My Invoice?".toList) ++ ".pdf".toList)
    ∧ ".pdf".toList <:+ split_filename [] ("Bill of Lading".toList) 2 :=
  ⟨claim_c9.1 ("My Invoice?".toList) ("Certificate".toList) 7 (by decide),
   claim_c9.2.2.1 [] ("Bill of Lading".toList) 2⟩
